import Mathlib

/-!
# Worker pool (`internal/pool`): shallow embedding and verified properties

The pool of `internal/pool` is embedded as a state machine. Every goroutine
advances by atomic steps (one `Submit` call, one pass of the dispatcher through
its `select`, one assignment of an entry to a worker, one iteration of a
worker's loop body). Mutexes are left out: every step is atomic already.

* A `*taskItem` is the position of the entry in the registry `tasks`
  (`Submit` stores every entry it enqueues at the position it has just
  measured); `none` is the nil pointer.
* Go `int`, `int64` and `time.Duration` values are `Int`; the arithmetic of
  `runTask` wraps at 64 bits (`wrap64`).
* A task closure is the sequence of the outcomes of its successive calls.
* Calls of the task function, sleeps and callback invocations are recorded as
  `Event`s, in the order in which they happen.
* `rand.Int63n` receives the raw sample it reduces as an argument, so that every
  possible jitter is covered.
-/

namespace Pool

/-! ## task.go -/

/-- TaskState represents a type of tasks states. -/
inductive TaskState where
  | Queued
  | Running
  | Done
  | Failed
  deriving DecidableEq, Repr

/-- Go `error` values that the pool handles: its two sentinel errors and the
failures returned by task functions (told apart by a code). -/
inductive Err where
  | ErrTaskQueueIsFull
  | ErrNoTaskByIndex
  | taskError (code : Nat)
  deriving DecidableEq, Repr

/-- Go `interface{}` result of a task: `none` is nil. -/
abbrev Value := Option Int

/-- Task represents a function that will be executed by a worker:
`func() (interface{}, error)`. The closure may be stateful; `t n` is what its
call returns after `n` earlier calls. -/
abbrev Task := Nat → Value × Option Err

/-- The struct taskItem represents a Task that will be added to the pool. -/
structure taskItem where
  index : Int
  fn : Task
  state : TaskState
  maxRetries : Int

/-- Method setState sets state for the taskItem. -/
def taskItem.setState (t : taskItem) (state : TaskState) : taskItem :=
  { t with state := state }

/-- Method getState gets state for the taskItem. -/
def taskItem.getState (t : taskItem) : TaskState := t.state

/-! ## Observable effects and outcomes -/

/-- What the pool does to the outside world. -/
inductive Event where
  | call (index : Int)
  | sleep (d : Int)
  | resultCallback (r : Value)
  | errorCallback (e : Err)
  deriving DecidableEq, Repr

/-- Outcome of a piece of Go code: it completes with a value, it cannot proceed
(a channel operation or a wait that is not ready), or it panics. -/
inductive Exec (α : Type) where
  | ok (a : α)
  | blocked
  | panic

/-! ## 64-bit arithmetic -/

/-- Two's complement wrap-around of a mathematical integer to `int64`. -/
def wrap64 (x : Int) : Int := (x + 2 ^ 63) % 2 ^ 64 - 2 ^ 63

/-- Go `x << i` on `int64` for a count `i ≥ 0`. -/
def shl64 (x : Int) (i : Nat) : Int := if i < 64 then wrap64 (x * 2 ^ i) else 0

/-- Go `a * b` on `int64`. -/
def mul64 (a b : Int) : Int := wrap64 (a * b)

/-- Go `a + b` on `int64`. -/
def add64 (a b : Int) : Int := wrap64 (a + b)

/-- Library function `rand.Int63n(n)`: it panics when `n <= 0` and otherwise
returns a value of `[0, n)`, here the reduction of the raw sample `src`. -/
def Int63n (src : Int) (n : Int) : Exec Int :=
  if n ≤ 0 then .panic else .ok (src % n)

/-! ## worker.go: runTask and handleResult

Only three fields of the pool are read here; they are passed as `RetryConfig`
and taken from the pool by `pool.config` below. -/

/-- The fields of `pool` that `runTask` and `handleResult` read. A callback
field is `true` when the callback is not nil. -/
structure RetryConfig where
  baseDelay : Int
  resultCallback : Bool
  errorCallback : Bool

/-- The lines of `runTask` that follow a failed attempt `i` which is not the
last one: `backoff := time.Duration(1<<i) * pool.baseDelay`,
`jitter := time.Duration(rand.Int63n(int64(backoff)))`,
`sleepTime := backoff + jitter`. The value is the argument of `time.Sleep`. -/
def retryDelay (baseDelay : Int) (i : Nat) (src : Int) : Exec Int :=
  let backoff := mul64 (shl64 1 i) baseDelay
  match Int63n src backoff with
  | .ok jitter => .ok (add64 backoff jitter)
  | .blocked => .blocked
  | .panic => .panic

/-- The loop `for i := 0; i <= ti.maxRetries; i++` of `runTask`. The first
argument is the number of iterations that remain, `ti.maxRetries + 1 - i`: the
loop condition holds exactly while it is positive. `rnd i` is the raw random
sample drawn in iteration `i`. Returns the entry, `result`, `err` and the
events of the run. -/
def runTaskLoop (ti : taskItem) (cfg : RetryConfig) (rnd : Nat → Int) :
    Nat → Nat → List Event → Exec (taskItem × Value × Option Err × List Event)
  | 0, _, ev => .ok (ti, none, none, ev)
  | remaining + 1, i, ev =>
    let out := ti.fn i
    let ev := ev ++ [Event.call ti.index]
    match out.2 with
    | none => .ok (ti.setState .Done, out.1, none, ev)
    | some e =>
      if (i : Int) = ti.maxRetries then .ok (ti.setState .Failed, out.1, some e, ev)
      else
        match retryDelay cfg.baseDelay i (rnd i) with
        | .ok sleepTime => runTaskLoop ti cfg rnd remaining (i + 1) (ev ++ [Event.sleep sleepTime])
        | .blocked => .blocked
        | .panic => .panic

/-- Method runTask executes a Task and returns the result and error.
If the Task fails, it will be retried according to the maxRetries of the
entry. -/
def runTask (ti : taskItem) (cfg : RetryConfig) (rnd : Nat → Int) :
    Exec (taskItem × Value × Option Err × List Event) :=
  runTaskLoop ti cfg rnd (ti.maxRetries + 1).toNat 0 []

/-- Method handleResult handles the result of a Task: the events it causes. -/
def handleResult (result : Value) (err : Option Err) (cfg : RetryConfig) : List Event :=
  match err, cfg.errorCallback with
  | some e, true => [Event.errorCallback e]
  | _, _ => if cfg.resultCallback then [Event.resultCallback result] else []

/-- The two calls a worker makes for an entry it received:
`result, err := w.runTask(t, pool); w.handleResult(result, err, pool)`. -/
def processTask (ti : taskItem) (cfg : RetryConfig) (rnd : Nat → Int) :
    Exec (taskItem × List Event) :=
  match runTask ti cfg rnd with
  | .ok (ti', result, err, ev) => .ok (ti', ev ++ handleResult result err cfg)
  | .blocked => .blocked
  | .panic => .panic

/-! ## Counting events -/

/-- Number of calls of the task function among the events. -/
def callCount : List Event → Nat
  | [] => 0
  | Event.call _ :: ev => callCount ev + 1
  | _ :: ev => callCount ev

/-- The failures handed to the error callback, in order. -/
def errorCallbacks : List Event → List Err
  | [] => []
  | Event.errorCallback e :: ev => e :: errorCallbacks ev
  | _ :: ev => errorCallbacks ev

/-- The results handed to the result callback, in order. -/
def resultCallbacks : List Event → List Value
  | [] => []
  | Event.resultCallback r :: ev => r :: resultCallbacks ev
  | _ :: ev => resultCallbacks ev

/-! ## Channels -/

/-- A Go channel: the elements waiting in its buffer (oldest first), its
capacity and whether it has been closed. -/
structure chan (α : Type) where
  buf : List α
  cap : Nat
  closed : Bool

/-- Go `make(chan T, cap)`. -/
def chan.make {α : Type} (cap : Nat) : chan α := { buf := [], cap := cap, closed := false }

/-- Go `close(c)`: closing a closed channel panics. -/
def chan.close {α : Type} (c : chan α) : Exec (chan α) :=
  if c.closed then .panic else .ok { c with closed := true }

/-- Go `c <- v` when no receiver is waiting: the value goes to the buffer if
there is room; sending on a closed channel panics. -/
def chan.send {α : Type} (c : chan α) (v : α) : Exec (chan α) :=
  if c.closed then .panic
  else if c.buf.length < c.cap then .ok { c with buf := c.buf ++ [v] }
  else .blocked

/-! ## pool.go: the pool and its goroutines -/

/-- The struct worker represents a worker in the pool. Its `taskQueue` is an
unbuffered channel. `holding` is the state of the goroutine started by
`start`: `none` while it waits in `for t := range w.taskQueue`, `some t` once it
has received the pointer `t` and until the loop body is over. -/
structure worker where
  taskQueue : chan (Option Nat)
  holding : Option (Option Nat)

/-- Function newWorker creates a new worker. -/
def newWorker : worker := { taskQueue := chan.make 0, holding := none }

/-- Where the goroutine running `assignTask` stands: `atSelect`, about to
evaluate its `select`; `parked`, asleep in the `select` because neither case
was ready; `holding t`, having taken `t` in `case t := <-p.taskBuffer` and
about to read `p.workerStack`; `exited`, returned from `assignTask`. -/
inductive Dispatcher where
  | atSelect
  | parked
  | holding (t : Option Nat)
  | exited
  deriving DecidableEq

/-- State of `sync.Once`: not used yet, inside the call of its function, or
done. -/
inductive Once where
  | fresh
  | running
  | done
  deriving DecidableEq

/-- The struct pool represents a pool of workers. `workers` and `workerStack`
are `none` when nil. `ctx` is `true` once the context is cancelled.
`dispatcher` and `trace` are not fields of the Go struct: they are the state
of the goroutine started by `go pool.assignTask()` and the events the pool has
caused so far. -/
structure pool where
  workers : Option (List worker)
  workerStack : Option (chan Nat)
  workersNum : Int
  taskBuffer : chan Nat
  tasks : List taskItem
  taskBufferSize : Int
  maxRetries : Int
  baseDelay : Int
  resultCallback : Bool
  errorCallback : Bool
  ctx : Bool
  stopOnce : Once
  wg : Int
  dispatcher : Dispatcher
  trace : List Event

/-- The fields read by `runTask` and `handleResult`. -/
def pool.config (p : pool) : RetryConfig :=
  { baseDelay := p.baseDelay, resultCallback := p.resultCallback,
    errorCallback := p.errorCallback }

/-! ## options.go -/

/-- Option represents an option for the pool (Go type `Option`, a function on
`*pool`). The package builds options with the five functions below only. -/
inductive PoolOption where
  | WithResultCallback (callback : Bool)
  | WithErrorCallback (callback : Bool)
  | WithRetryCount (retryCount : Int)
  | WithBaseDelay (baseD : Int)
  | WithTaskBufferSize (size : Int)

/-- The call `opt(pool)` of `New`. -/
def PoolOption.apply (p : pool) : PoolOption → pool
  | .WithResultCallback callback => { p with resultCallback := callback }
  | .WithErrorCallback callback => { p with errorCallback := callback }
  | .WithRetryCount retryCount => { p with maxRetries := retryCount }
  | .WithBaseDelay baseD => { p with baseDelay := baseD }
  | .WithTaskBufferSize size => { p with taskBufferSize := size }

/-! ## pool.go: operations -/

/-- Function New creates a new pool of workers. Both `make` calls panic on a
negative size. The worker loop stores `newWorker()` in every slot and sends
`0, 1, ..., workersNum - 1` to `workerStack`. -/
def New (workersNum : Int) (opts : List PoolOption) : Exec pool :=
  if workersNum < 0 then .panic
  else
    let pool0 : pool :=
      { workersNum := workersNum
        workers := some []
        workerStack := some (chan.make workersNum.toNat)
        taskBuffer := chan.make 0
        tasks := []
        taskBufferSize := 1000000
        maxRetries := 0
        baseDelay := 0
        resultCallback := false
        errorCallback := false
        ctx := false
        stopOnce := .fresh
        wg := 0
        dispatcher := .atSelect
        trace := [] }
    let pool1 := opts.foldl PoolOption.apply pool0
    if pool1.taskBufferSize < 0 then .panic
    else
      .ok { pool1 with
        taskBuffer := chan.make pool1.taskBufferSize.toNat
        workers := some (List.replicate pool1.workersNum.toNat newWorker)
        workerStack :=
          some { buf := List.range pool1.workersNum.toNat, cap := workersNum.toNat,
                 closed := false } }

/-- Method Submit adds a Task to the pool. The `select` with a `default`
case is a non-blocking send: it panics on a closed channel, hands the entry to
the dispatcher if that one is asleep in its receive, buffers it if there is
room, and falls to `default` otherwise. Returns the pool, the identifier and
the error. -/
def Submit (p : pool) (t : Task) (maxRetries : Int) : Exec (pool × Int × Option Err) :=
  let taskItm : taskItem := { index := 0, fn := t, state := .Queued, maxRetries := maxRetries }
  let ptr := p.tasks.length
  if p.taskBuffer.closed then .panic
  else
    let sent : Option pool :=
      if p.dispatcher = .parked then some { p with dispatcher := .holding (some ptr) }
      else if p.taskBuffer.buf.length < p.taskBuffer.cap then
        some { p with taskBuffer := { p.taskBuffer with buf := p.taskBuffer.buf ++ [ptr] } }
      else none
    match sent with
    | some p1 =>
      let taskItm := { taskItm with index := (p1.tasks.length : Int) }
      .ok ({ p1 with tasks := p1.tasks ++ [taskItm] }, taskItm.index, none)
    | none => .ok (p, -1, some .ErrTaskQueueIsFull)

/-- Method Wait waits for all tasks to be dispatched and completed: it spins
until `len(p.taskBuffer) == 0`, then `p.wg.Wait()` returns once the counter is
zero, then it sleeps 100 ms. -/
def Wait (p : pool) : Exec pool :=
  if p.taskBuffer.buf.length = 0 then
    if p.wg = 0 then .ok { p with trace := p.trace ++ [Event.sleep 100000000] }
    else .blocked
  else .blocked

/-- Closes the receive point of every worker: the loop
`for _, worker := range p.workers { close(worker.taskQueue) }`. -/
def closeWorkers : List worker → Exec (List worker)
  | [] => .ok []
  | w :: ws =>
    match w.taskQueue.close with
    | .ok q =>
      match closeWorkers ws with
      | .ok ws' => .ok ({ w with taskQueue := q } :: ws')
      | .blocked => .blocked
      | .panic => .panic
    | .blocked => .blocked
    | .panic => .panic

/-- First part of the function that `Stop` passes to `stopOnce.Do`:
`p.cancel()`, `close(p.taskBuffer)` and the closing of the workers. A
dispatcher asleep in its `select` is woken by the cancellation and returns. -/
def Stop.teardown (p : pool) : Exec pool :=
  match p.taskBuffer.close with
  | .ok q =>
    match closeWorkers (p.workers.getD []) with
    | .ok ws =>
      .ok { p with
        ctx := true
        dispatcher := if p.dispatcher = .parked then .exited else p.dispatcher
        taskBuffer := q
        workers := p.workers.map (fun _ => ws)
        stopOnce := .running }
    | .blocked => .blocked
    | .panic => .panic
  | .blocked => .blocked
  | .panic => .panic

/-- Rest of `Stop` for the caller whose function runs: `p.wg.Wait()`, which
returns once the counter is zero, `p.workers = nil`, `p.workerStack = nil`, the
end of `stopOnce.Do` and `return nil`. -/
def Stop.finish (p : pool) : Exec (pool × Option Err) :=
  match p.stopOnce with
  | .running =>
    if p.wg = 0 then
      .ok ({ p with workers := none, workerStack := none, stopOnce := .done }, none)
    else .blocked
  | _ => .blocked

/-- Method Stop stops all workers and releases resources. A call made after
`stopOnce` is done returns at once; a call made while another caller is inside
`stopOnce.Do` waits for it. -/
def Stop (p : pool) : Exec (pool × Option Err) :=
  match p.stopOnce with
  | .done => .ok (p, none)
  | .running => .blocked
  | .fresh =>
    match Stop.teardown p with
    | .ok p1 => Stop.finish p1
    | .blocked => .blocked
    | .panic => .panic

/-- The `select` of `assignTask`. When the context is cancelled and the
receive is ready too, Go picks a case at random: `pickDone` is that choice.
A receive from the closed and empty `taskBuffer` yields nil. -/
def assignTask.select (p : pool) (pickDone : Bool) : Exec pool :=
  match p.dispatcher with
  | .atSelect =>
    let recvReady : Bool := !p.taskBuffer.buf.isEmpty || p.taskBuffer.closed
    if p.ctx && (pickDone || !recvReady) then .ok { p with dispatcher := .exited }
    else
      match p.taskBuffer.buf with
      | t :: rest =>
        .ok { p with
          taskBuffer := { p.taskBuffer with buf := rest }
          dispatcher := .holding (some t) }
      | [] =>
        if p.taskBuffer.closed then .ok { p with dispatcher := .holding none }
        else .ok { p with dispatcher := .parked }
  | _ => .blocked

/-- Sets the state of the entry a pointer designates (`t.setState(state)`). -/
def setStateAt (tasks : List taskItem) (ptr : Nat) (state : TaskState) : List taskItem :=
  match tasks[ptr]? with
  | some ti => tasks.set ptr (ti.setState state)
  | none => tasks

/-- The body of `case t := <-p.taskBuffer:` in `assignTask`:
`workerIndex := <-p.workerStack`, `p.wg.Add(1)`, `t.setState(Running)`,
`p.workers[workerIndex].taskQueue <- t`. The receive waits while the freelist
is empty or nil; `setState` on a nil entry, indexing the nil worker table and
sending on a closed channel panic; the send completes when the worker is in
its receive. -/
def assignTask.assign (p : pool) : Exec pool :=
  match p.dispatcher with
  | .holding t =>
    match p.workerStack with
    | none => .blocked
    | some stack =>
      match stack.buf with
      | [] => .blocked
      | workerIndex :: rest =>
        match t with
        | none => .panic
        | some ptr =>
          match (p.workers.getD [])[workerIndex]? with
          | none => .panic
          | some w =>
            if w.taskQueue.closed then .panic
            else if w.holding.isSome then .blocked
            else
              .ok { p with
                workerStack := some { stack with buf := rest }
                wg := p.wg + 1
                tasks := setStateAt p.tasks ptr .Running
                workers := some ((p.workers.getD []).set workerIndex { w with holding := some t })
                dispatcher := .atSelect }
  | _ => .blocked

/-- One iteration of the loop of the goroutine started by `worker.start`, for
the worker `workerIndex`, from the moment it has received `t`:
`if t != nil { runTask; handleResult }`, `pool.workerStack <- workerIndex`,
`pool.wg.Done()`. A send on the nil freelist never completes; `Done` panics
on a negative counter. -/
def worker.start (p : pool) (workerIndex : Nat) (rnd : Nat → Int) : Exec pool :=
  match (p.workers.getD [])[workerIndex]? with
  | none => .blocked
  | some w =>
    match w.holding with
    | none => .blocked
    | some t =>
      let ran : Exec (List taskItem × List Event) :=
        match t with
        | none => .ok (p.tasks, [])
        | some ptr =>
          match p.tasks[ptr]? with
          | none => .panic
          | some ti =>
            match processTask ti p.config rnd with
            | .ok (ti', ev) => .ok (p.tasks.set ptr ti', ev)
            | .blocked => .blocked
            | .panic => .panic
      match ran with
      | .ok (tasks, ev) =>
        match p.workerStack with
        | none => .blocked
        | some stack =>
          match stack.send workerIndex with
          | .ok stack' =>
            if p.wg - 1 < 0 then .panic
            else
              .ok { p with
                tasks := tasks
                trace := p.trace ++ ev
                workerStack := some stack'
                wg := p.wg - 1
                workers := some ((p.workers.getD []).set workerIndex { w with holding := none }) }
          | .blocked => .blocked
          | .panic => .panic
      | .blocked => .blocked
      | .panic => .panic

/-- Method GetTaskBufferSize returns the size of the Task queue. -/
def GetTaskBufferSize (p : pool) : Int := p.taskBufferSize

/-- Method GetTasksState returns all states of the tasks. -/
def GetTasksState (p : pool) : List TaskState := p.tasks.map taskItem.getState

/-- Method GetTaskStateById returns states of the Task by its id. -/
def GetTaskStateById (p : pool) (id : Int) : TaskState × Option Err :=
  if h : id ≥ 0 ∧ id < p.tasks.length then
    ((p.tasks.get ⟨id.toNat, by omega⟩).state, none)
  else (.Failed, some .ErrNoTaskByIndex)

/-! ## Executions -/

/-- A step of one of the goroutines that use the pool: `submit`, a caller runs
`Submit(t, maxRetries)`; `select`, the dispatcher evaluates its `select`;
`assign`, the dispatcher acquires a slot and hands its entry to that worker;
`work`, the worker `workerIndex` finishes its entry and releases its slot. -/
inductive Action where
  | submit (t : Task) (maxRetries : Int)
  | select (pickDone : Bool)
  | assign
  | work (workerIndex : Nat) (rnd : Nat → Int)

/-- Effect of a step on the pool. -/
def step (p : pool) : Action → Exec pool
  | .submit t maxRetries =>
    match Submit p t maxRetries with
    | .ok (p', _, _) => .ok p'
    | .blocked => .blocked
    | .panic => .panic
  | .select pickDone => assignTask.select p pickDone
  | .assign => assignTask.assign p
  | .work workerIndex rnd => worker.start p workerIndex rnd

/-- What `Submit` returned, if the step is a `Submit` that returned. -/
def submitReturn (p : pool) : Action → Option (Int × Option Err)
  | .submit t maxRetries =>
    match Submit p t maxRetries with
    | .ok (_, id, err) => some (id, err)
    | _ => none
  | _ => none

/-- Runs the steps in order from `p`. A step that cannot proceed leaves the
pool as it is (that goroutine keeps waiting); a panic ends the process.
Returns the last state and the returns of the `Submit` calls, in order. -/
def run (p : pool) : List Action → pool × List (Int × Option Err)
  | [] => (p, [])
  | a :: rest =>
    match step p a with
    | .ok p' =>
      let r := run p' rest
      (r.1, (submitReturn p a).toList ++ r.2)
    | .blocked => run p rest
    | .panic => (p, [])

/-- States reached from `New(workersNum, opts...)` by steps of the callers of
`Submit`, the dispatcher and the workers. -/
inductive Reachable (workersNum : Int) (opts : List PoolOption) : pool → Prop where
  | init (p : pool) (h : New workersNum opts = .ok p) : Reachable workersNum opts p
  | step (p p' : pool) (a : Action) (hp : Reachable workersNum opts p)
      (h : step p a = .ok p') : Reachable workersNum opts p'

/-- Number of workers that hold an entry. -/
def busy (p : pool) : Nat :=
  (p.workers.getD []).countP (fun w => w.holding.isSome)

/-- The identifiers in the freelist. -/
def freelist (p : pool) : List Nat :=
  match p.workerStack with
  | some stack => stack.buf
  | none => []

/-- The identifiers returned by the `Submit` calls that succeeded, in order. -/
def successIds (rets : List (Int × Option Err)) : List Int :=
  (rets.filter (fun x => x.2.isNone)).map Prod.fst

/-- Every entry of the registry carries its position as index. -/
def Indexed (tasks : List taskItem) : Prop :=
  ∀ (i : Nat) (ti : taskItem), tasks[i]? = some ti → ti.index = (i : Int)

/-- Accounting of the worker slots: the worker table and the freelist exist,
the identifiers in the freelist and the busy workers add up to `n`, no
identifier is in the freelist twice, and every worker in the freelist is
idle. -/
def SlotsInv (n : Nat) (p : pool) : Prop :=
  ∃ (ws : List worker) (stack : chan Nat),
    p.workers = some ws ∧ p.workerStack = some stack ∧
    stack.buf.length + ws.countP (fun w => w.holding.isSome) = n ∧
    stack.buf.Nodup ∧
    ∀ i ∈ stack.buf, ∃ w, ws[i]? = some w ∧ w.holding = none

/-- The pool that `New(1, WithTaskBufferSize(1))` returns. -/
def freshPool : pool :=
  { workers := some [newWorker]
    workerStack := some { buf := [0], cap := 1, closed := false }
    workersNum := 1
    taskBuffer := chan.make 1
    tasks := []
    taskBufferSize := 1
    maxRetries := 0
    baseDelay := 0
    resultCallback := false
    errorCallback := false
    ctx := false
    stopOnce := .fresh
    wg := 0
    dispatcher := .atSelect
    trace := [] }

/-- The pool `freshPool` once `Stop` has returned. -/
def stoppedPool : pool :=
  { freshPool with
    workers := none
    workerStack := none
    taskBuffer := { buf := [], cap := 1, closed := true }
    ctx := true
    stopOnce := .done }

/-- A task function that fails at every call. -/
def alwaysFails : Task := fun _ => (none, some (.taskError 1))

/-- A task function that succeeds at every call. -/
def neverFails : Task := fun _ => (some 7, none)

/-- A dispatched entry whose function always fails, with the given
`maxRetries`. -/
def failingItem (maxRetries : Int) : taskItem :=
  { index := 0, fn := alwaysFails, state := .Running, maxRetries := maxRetries }

/-- The configuration of a pool with the given base delay (in ns) and an error
callback only. -/
def errorOnly (baseDelay : Int) : RetryConfig :=
  { baseDelay := baseDelay, resultCallback := false, errorCallback := true }

/-- The configuration of a pool with the given base delay (in ns) and a result
callback only. -/
def resultOnly (baseDelay : Int) : RetryConfig :=
  { baseDelay := baseDelay, resultCallback := true, errorCallback := false }

/-- Executions: `Steps p q` when `q` is reached from `p` by steps of the callers
of `Submit`, the dispatcher and the workers. -/
inductive Steps : pool → pool → Prop where
  | refl (p : pool) : Steps p p
  | step (p q r : pool) (a : Action) (hq : Steps p q) (h : step q a = .ok r) : Steps p r

/-- The value of an outcome that completed, `d` otherwise. -/
def Exec.getD {α : Type} (x : Exec α) (d : α) : α :=
  match x with
  | .ok a => a
  | _ => d

/-- The pool `freshPool` after one `Submit`, the `select` of the dispatcher and
the assignment of the entry: worker 0 holds entry 0. -/
def busyPool : pool := (run freshPool [.submit neverFails 0, .select false, .assign]).1

/-- The pool `busyPool` after the first part of `Stop`: the caller waits in
`p.wg.Wait()` for worker 0. -/
def busyClosing : pool := (Stop.teardown busyPool).getD busyPool

/-- The pool `busyClosing` once worker 0 has finished its entry. -/
def busyDrained : pool := (step busyClosing (.work 0 (fun _ => 0))).getD busyClosing

/-- The pool `busyDrained` once the waiting `Stop` has returned. -/
def busyStopped : pool := ((Stop.finish busyDrained).getD (busyDrained, none)).1

/-! ## 64-bit arithmetic: lemmas -/

theorem wrap64_eq (x : Int) (h1 : -(2 ^ 63) ≤ x) (h2 : x < 2 ^ 63) : wrap64 x = x := by
  unfold wrap64
  omega

theorem pow_lt_of_backoff_fits (d : Int) (i : Nat) (hd : 0 < d) (h : d * 2 ^ i < 2 ^ 63) :
    i < 63 := by
  by_contra hi
  have hi' : 63 ≤ i := by omega
  have h1 : (2 : Int) ^ 63 ≤ 2 ^ i := pow_le_pow_right₀ (by norm_num) hi'
  have h2 : (2 : Int) ^ i ≤ d * 2 ^ i := by
    have : (0 : Int) < 2 ^ i := by positivity
    nlinarith
  omega

theorem backoff_eq (d : Int) (i : Nat) (hd : 0 < d) (h : d * 2 ^ i < 2 ^ 63) :
    mul64 (shl64 1 i) d = d * 2 ^ i := by
  have hi : i < 63 := pow_lt_of_backoff_fits d i hd h
  have hpos : (0 : Int) < 2 ^ i := by positivity
  have hle : (2 : Int) ^ i ≤ d * 2 ^ i := by nlinarith
  have hprod : (0 : Int) < d * 2 ^ i := by positivity
  have hs : shl64 1 i = 2 ^ i := by
    unfold shl64
    rw [if_pos (by omega), one_mul]
    exact wrap64_eq _ (by omega) (by omega)
  unfold mul64
  rw [hs, mul_comm]
  exact wrap64_eq _ (by omega) h

theorem retryDelay_ok (d : Int) (i : Nat) (src : Int) (hd : 0 < d) (h : d * 2 ^ i < 2 ^ 63) :
    retryDelay d i src = .ok (add64 (d * 2 ^ i) (src % (d * 2 ^ i))) := by
  have hprod : (0 : Int) < d * 2 ^ i := by positivity
  unfold retryDelay
  simp only [backoff_eq d i hd h, Int63n]
  rw [if_neg (by omega)]

/-! ## Events: lemmas -/

theorem callCount_append (a b : List Event) : callCount (a ++ b) = callCount a + callCount b := by
  induction a with
  | nil => simp [callCount]
  | cons x xs ih =>
    cases x
    · rw [List.cons_append]
      simp only [callCount]
      rw [ih]
      omega
    all_goals simpa only [List.cons_append, callCount] using ih

theorem errorCallbacks_append (a b : List Event) :
    errorCallbacks (a ++ b) = errorCallbacks a ++ errorCallbacks b := by
  induction a with
  | nil => simp [errorCallbacks]
  | cons x xs ih => cases x <;> simp [errorCallbacks, ih]

theorem resultCallbacks_append (a b : List Event) :
    resultCallbacks (a ++ b) = resultCallbacks a ++ resultCallbacks b := by
  induction a with
  | nil => simp [resultCallbacks]
  | cons x xs ih => cases x <;> simp [resultCallbacks, ih]

/-! ## runTask: lemmas -/

/-- One iteration of the loop of `runTask` whose attempt fails and is not the
last one: a call, a sleep, and the next iteration. -/
theorem runTaskLoop_retry (ti : taskItem) (cfg : RetryConfig) (rnd : Nat → Int)
    (remaining i : Nat) (ev : List Event) (e : Err) (s : Int)
    (hfail : (ti.fn i).2 = some e) (hne : (i : Int) ≠ ti.maxRetries)
    (hs : retryDelay cfg.baseDelay i (rnd i) = .ok s) :
    runTaskLoop ti cfg rnd (remaining + 1) i ev =
      runTaskLoop ti cfg rnd remaining (i + 1) (ev ++ [Event.call ti.index] ++ [Event.sleep s]) := by
  rw [runTaskLoop]
  simp only [hfail, if_neg hne, hs]

/-- When every attempt fails and the backoffs fit, the loop started at attempt
`i` with `k - i + 1` iterations left makes `k - i + 1` calls and ends with the
failure of attempt `k`. -/
theorem runTaskLoop_always_failing (k : Nat) (ti : taskItem) (cfg : RetryConfig)
    (rnd : Nat → Int) (hk : ti.maxRetries = k) (hd : 0 < cfg.baseDelay)
    (hfit : ∀ i, i < k → cfg.baseDelay * 2 ^ i < 2 ^ 63)
    (hfail : ∀ n, (ti.fn n).2 ≠ none) :
    ∀ (r i : Nat) (ev : List Event), i + r = k →
      ∃ ev', runTaskLoop ti cfg rnd (r + 1) i ev =
          .ok (ti.setState .Failed, (ti.fn k).1, (ti.fn k).2, ev ++ ev') ∧
        callCount ev' = r + 1 ∧ errorCallbacks ev' = [] ∧ resultCallbacks ev' = [] := by
  intro r
  induction r with
  | zero =>
    intro i ev hik
    have hi : i = k := by omega
    subst hi
    obtain ⟨e, he⟩ := Option.ne_none_iff_exists'.mp (hfail i)
    refine ⟨[Event.call ti.index], ?_, by simp [callCount], by simp [errorCallbacks],
      by simp [resultCallbacks]⟩
    rw [runTaskLoop]
    simp only [he, hk, if_true]
  | succ r ih =>
    intro i ev hik
    obtain ⟨e, he⟩ := Option.ne_none_iff_exists'.mp (hfail i)
    have hne : (i : Int) ≠ ti.maxRetries := by rw [hk]; omega
    have hs := retryDelay_ok cfg.baseDelay i (rnd i) hd (hfit i (by omega))
    obtain ⟨ev', h1, h2, h3, h4⟩ := ih (i + 1)
      (ev ++ [Event.call ti.index] ++ [Event.sleep (add64 (cfg.baseDelay * 2 ^ i)
        (rnd i % (cfg.baseDelay * 2 ^ i)))]) (by omega)
    refine ⟨[Event.call ti.index] ++ [Event.sleep (add64 (cfg.baseDelay * 2 ^ i)
        (rnd i % (cfg.baseDelay * 2 ^ i)))] ++ ev', ?_, ?_, ?_, ?_⟩
    · rw [runTaskLoop_retry ti cfg rnd (r + 1) i ev e _ he hne hs, h1]
      simp [List.append_assoc]
    · simp [callCount_append, callCount, h2]
    · simp [errorCallbacks_append, errorCallbacks, h3]
    · simp [resultCallbacks_append, resultCallbacks, h4]

/-- A task whose first call succeeds, submitted with `maxRetries >= 0`, is
called once and its entry ends `Done`. -/
theorem runTask_first_call_succeeds (ti : taskItem) (cfg : RetryConfig) (rnd : Nat → Int)
    (h0 : 0 ≤ ti.maxRetries) (hok : (ti.fn 0).2 = none) :
    runTask ti cfg rnd = .ok (ti.setState .Done, (ti.fn 0).1, none, [Event.call ti.index]) := by
  obtain ⟨n, hn⟩ : ∃ n : Nat, (ti.maxRetries + 1).toNat = n + 1 := ⟨ti.maxRetries.toNat, by omega⟩
  unfold runTask
  rw [hn, runTaskLoop]
  simp only [hok, List.nil_append]

/-- With `maxRetries < 0` the loop of `runTask` has no iteration: no call, the
entry keeps its state and `nil, nil` is returned. -/
theorem runTask_negative_maxRetries (ti : taskItem) (cfg : RetryConfig) (rnd : Nat → Int)
    (h0 : ti.maxRetries < 0) : runTask ti cfg rnd = .ok (ti, none, none, []) := by
  have hn : (ti.maxRetries + 1).toNat = 0 := by omega
  unfold runTask
  rw [hn, runTaskLoop]

/-! ## Claims about runTask and handleResult -/

/-- C1: a task whose function always fails, submitted with `maxRetries = k`,
with a positive base delay whose backoffs `baseDelay * 2^i` (`i < k`) fit in a
64-bit duration and with the error callback configured, is processed
(`runTask` then `handleResult`) by `k + 1` calls of the function; the entry
ends `Failed`, the error callback receives the failure of the last attempt,
once, and the result callback is not invoked. -/
theorem processTask_always_failing (k : Nat) (ti : taskItem) (cfg : RetryConfig)
    (rnd : Nat → Int) (hk : ti.maxRetries = k) (hd : 0 < cfg.baseDelay)
    (hfit : ∀ i, i < k → cfg.baseDelay * 2 ^ i < 2 ^ 63)
    (hfail : ∀ n, (ti.fn n).2 ≠ none)
    (hcb : cfg.errorCallback = true) :
    ∃ ev e, processTask ti cfg rnd = .ok (ti.setState .Failed, ev) ∧
      (ti.setState .Failed).state = .Failed ∧
      callCount ev = k + 1 ∧
      (ti.fn k).2 = some e ∧ errorCallbacks ev = [e] ∧
      resultCallbacks ev = [] := by
  obtain ⟨ev', h1, h2, h3, h4⟩ :=
    runTaskLoop_always_failing k ti cfg rnd hk hd hfit hfail k 0 [] (by omega)
  obtain ⟨e, he⟩ := Option.ne_none_iff_exists'.mp (hfail k)
  have hn : (ti.maxRetries + 1).toNat = k + 1 := by rw [hk]; omega
  refine ⟨ev' ++ [Event.errorCallback e], e, ?_, rfl, ?_, he, ?_, ?_⟩
  · unfold processTask runTask
    rw [hn, h1]
    simp [he, handleResult, hcb]
  · simp [callCount_append, callCount, h2]
  · simp [errorCallbacks_append, errorCallbacks, h3]
  · simp [resultCallbacks_append, resultCallbacks, h4]

/-- Witness of C1: `maxRetries = 3`, base delay 5 ns. -/
theorem processTask_always_failing_witness :
    ∃ ev e, processTask (failingItem 3) (errorOnly 5) (fun _ => 7) =
        .ok ((failingItem 3).setState .Failed, ev) ∧
      ((failingItem 3).setState .Failed).state = .Failed ∧
      callCount ev = 3 + 1 ∧
      ((failingItem 3).fn 3).2 = some e ∧ errorCallbacks ev = [e] ∧
      resultCallbacks ev = [] :=
  processTask_always_failing 3 (failingItem 3) (errorOnly 5) (fun _ => 7)
    rfl (by decide)
    (by intro i hi; show (5 : Int) * 2 ^ i < 2 ^ 63; interval_cases i <;> norm_num)
    (by intro n; simp [failingItem, alwaysFails])
    rfl

/-- C6, failing input: the final attempt failed, no error callback is
configured and a result callback is: `handleResult` invokes the result
callback, with the result returned next to the failure. Processing a task
that fails with `maxRetries = 0` on such a pool ends `Failed` and hands nil to
the result callback. -/
theorem handleResult_failure_reaches_resultCallback (result : Value) (e : Err)
    (baseDelay : Int) :
    handleResult result (some e) (resultOnly baseDelay) = [Event.resultCallback result] ∧
    processTask (failingItem 0) (resultOnly baseDelay) (fun _ => 0) =
      .ok ((failingItem 0).setState .Failed, [Event.call 0, Event.resultCallback none]) :=
  ⟨rfl, rfl⟩

/-- C7, failing input: a pool built with the default base delay (zero), one
task that fails, submitted with `maxRetries = 1`. The worker that runs it
panics in `rand.Int63n(0)` after the first attempt, whatever the random
source. -/
theorem zero_backoff_panics (rnd : Nat → Int) :
    ∃ p, New 1 [] = .ok p ∧
      step (run p [.submit alwaysFails 1, .select false, .assign]).1 (.work 0 rnd) = .panic ∧
      retryDelay p.baseDelay 0 (rnd 0) = .panic :=
  ⟨_, rfl, rfl, rfl⟩

/-- C5, failing input: `Submit` accepts `maxRetries = -1`. Once the entry has
been dispatched and the worker has finished it (nothing queued, no worker
busy, `Wait` returns), the task function, which never fails, has not been
called and the entry is `Running`; the result callback has received nil. -/
theorem negative_maxRetries_never_runs (rnd : Nat → Int) :
    ∃ p0 id, New 1 [.WithResultCallback true] = .ok p0 ∧
      submitReturn p0 (.submit neverFails (-1)) = some (id, none) ∧
      (let p := (run p0 [.submit neverFails (-1), .select false, .assign, .work 0 rnd]).1
       p.taskBuffer.buf = [] ∧ p.dispatcher = .atSelect ∧ busy p = 0 ∧ p.wg = 0 ∧
       (∃ p', Wait p = .ok p') ∧
       GetTasksState p = [.Running] ∧ GetTaskStateById p id = (.Running, none) ∧
       callCount p.trace = 0 ∧ p.trace = [Event.resultCallback none]) :=
  ⟨_, 0, rfl, rfl, rfl, rfl, rfl, rfl, ⟨_, rfl⟩, rfl, rfl, rfl, rfl⟩

/-- C9, counterexample: with base delay `2^62` ns the second failed attempt
(`i = 1`) computes a backoff that wraps to `-2^63`, and `runTask` panics in
`rand.Int63n` instead of sleeping; with base delay `2^62 + 1` ns the first
failed attempt can sleep a negative duration. -/
theorem retry_sleep_overflow :
    retryDelay (2 ^ 62) 1 0 = .panic ∧
    runTask (failingItem 2) (errorOnly (2 ^ 62)) (fun _ => 0) = .panic ∧
    retryDelay (2 ^ 62 + 1) 0 (2 ^ 62) = .ok (-(2 ^ 63) + 1) ∧
    ¬ ((2 : Int) ^ 62 + 1 ≤ -(2 ^ 63) + 1) := by
  refine ⟨rfl, rfl, rfl, by norm_num⟩

/-- C9, amended: for a positive base delay and a failed attempt `i < maxRetries`
whose backoff `baseDelay * 2^i` is at most `2^62` ns (so that backoff plus
jitter fits in a 64-bit duration), the iteration of `runTask` sleeps
`backoff + jitter` with `0 <= jitter < backoff` before attempt `i + 1`, a
duration of `[baseDelay * 2^i, baseDelay * 2^(i+1))`. -/
theorem retry_sleep_bounds (ti : taskItem) (cfg : RetryConfig) (rnd : Nat → Int) (i : Nat)
    (e : Err) (hd : 0 < cfg.baseDelay) (hfail : (ti.fn i).2 = some e)
    (hi : (i : Int) < ti.maxRetries) (hfit : cfg.baseDelay * 2 ^ i ≤ 2 ^ 62) :
    ∃ jitter : Int, 0 ≤ jitter ∧ jitter < cfg.baseDelay * 2 ^ i ∧
      (∀ (remaining : Nat) (ev : List Event),
        runTaskLoop ti cfg rnd (remaining + 1) i ev =
          runTaskLoop ti cfg rnd remaining (i + 1)
            (ev ++ [Event.call ti.index] ++
              [Event.sleep (cfg.baseDelay * 2 ^ i + jitter)])) ∧
      cfg.baseDelay * 2 ^ i ≤ cfg.baseDelay * 2 ^ i + jitter ∧
      cfg.baseDelay * 2 ^ i + jitter < cfg.baseDelay * 2 ^ (i + 1) := by
  have hprod : (0 : Int) < cfg.baseDelay * 2 ^ i := by positivity
  have h0 : 0 ≤ rnd i % (cfg.baseDelay * 2 ^ i) := Int.emod_nonneg _ (by omega)
  have h1 : rnd i % (cfg.baseDelay * 2 ^ i) < cfg.baseDelay * 2 ^ i := Int.emod_lt_of_pos _ hprod
  have hs := retryDelay_ok cfg.baseDelay i (rnd i) hd (by omega)
  have hadd : add64 (cfg.baseDelay * 2 ^ i) (rnd i % (cfg.baseDelay * 2 ^ i)) =
      cfg.baseDelay * 2 ^ i + rnd i % (cfg.baseDelay * 2 ^ i) :=
    wrap64_eq _ (by omega) (by omega)
  rw [hadd] at hs
  refine ⟨rnd i % (cfg.baseDelay * 2 ^ i), h0, h1, ?_, by omega, ?_⟩
  · intro remaining ev
    exact runTaskLoop_retry ti cfg rnd remaining i ev e _ hfail (by omega) hs
  · rw [pow_succ]
    nlinarith

/-- Witness of C9: base delay 5 ns, attempt 1 of a task with `maxRetries = 3`. -/
theorem retry_sleep_bounds_witness :
    ∃ jitter : Int, 0 ≤ jitter ∧ jitter < 5 * 2 ^ 1 ∧
      (∀ (remaining : Nat) (ev : List Event),
        runTaskLoop (failingItem 3) (errorOnly 5) (fun _ => 7) (remaining + 1) 1 ev =
          runTaskLoop (failingItem 3) (errorOnly 5) (fun _ => 7) remaining (1 + 1)
            (ev ++ [Event.call 0] ++ [Event.sleep (5 * 2 ^ 1 + jitter)])) ∧
      (5 : Int) * 2 ^ 1 ≤ 5 * 2 ^ 1 + jitter ∧
      5 * 2 ^ 1 + jitter < 5 * 2 ^ (1 + 1) :=
  retry_sleep_bounds (failingItem 3) (errorOnly 5) (fun _ => 7) 1
    (.taskError 1) (by decide) rfl (by decide) (by decide)

/-! ## Claims about Submit, the queries and Stop -/

/-- C2, counterexample: the queue holds as many entries as its capacity and
`Submit` does not return `ErrTaskQueueIsFull`. After `Stop` the queue is
closed and `Submit` panics (capacity 0; capacity 1 with one entry queued);
with capacity 0 and the dispatcher asleep in its receive, `Submit` hands the
entry over and returns identifier 0. -/
theorem Submit_full_counterexample :
    (∃ p0 p, New 1 [.WithTaskBufferSize 0] = .ok p0 ∧
      Stop p0 = .ok (p, none) ∧
      p.taskBuffer.buf.length = p.taskBuffer.cap ∧
      Submit p neverFails 0 = .panic) ∧
    (∃ p0 p, New 1 [.WithTaskBufferSize 1] = .ok p0 ∧
      Stop (run p0 [.submit neverFails 0]).1 = .ok (p, none) ∧
      p.taskBuffer.buf.length = p.taskBuffer.cap ∧
      Submit p neverFails 0 = .panic) ∧
    (∃ p0 p', New 1 [.WithTaskBufferSize 0] = .ok p0 ∧
      (run p0 [.select false]).1.taskBuffer.buf.length =
        (run p0 [.select false]).1.taskBuffer.cap ∧
      Submit (run p0 [.select false]).1 neverFails 0 = .ok (p', 0, none)) :=
  ⟨⟨_, _, rfl, rfl, rfl, rfl⟩, ⟨_, _, rfl, rfl, rfl, rfl⟩, ⟨_, _, rfl, rfl, rfl⟩⟩

/-- C2, amended: in every pool state in which the admission queue has not been
closed by `Stop`, the dispatcher is not asleep in its receive on the queue,
and the queue holds as many entries as its capacity, `Submit` returns
identifier -1 and `ErrTaskQueueIsFull` and leaves the pool, its registry and
its queue included, as it was. -/
theorem Submit_queue_full (p : pool) (t : Task) (maxRetries : Int)
    (hopen : p.taskBuffer.closed = false) (hdisp : p.dispatcher ≠ .parked)
    (hfull : p.taskBuffer.buf.length = p.taskBuffer.cap) :
    Submit p t maxRetries = .ok (p, -1, some .ErrTaskQueueIsFull) := by
  unfold Submit
  simp [hopen, hdisp, hfull]

/-- Witness of C2: capacity 1, one entry queued, a second `Submit`. -/
theorem Submit_queue_full_witness :
    ∃ p0, New 1 [.WithTaskBufferSize 1] = .ok p0 ∧
      Submit (run p0 [.submit neverFails 0]).1 neverFails 0 =
        .ok ((run p0 [.submit neverFails 0]).1, -1, some .ErrTaskQueueIsFull) :=
  ⟨_, rfl, Submit_queue_full _ neverFails 0 rfl (by decide) rfl⟩

/-- C4: `GetTaskStateById(id)` returns `ErrNoTaskByIndex` exactly when `id < 0`
or `id >= len(tasks)`; otherwise it returns no error and the state at position
`id` of `GetTasksState()`. `GetTasksState()` has one state per registered task,
the state at position `i` being that of the entry at position `i`. -/
theorem GetTaskStateById_spec (p : pool) (id : Int) :
    ((GetTaskStateById p id).2 = some .ErrNoTaskByIndex ↔
      (id < 0 ∨ id ≥ (p.tasks.length : Int))) ∧
    (¬ (id < 0 ∨ id ≥ (p.tasks.length : Int)) →
      (GetTaskStateById p id).2 = none ∧
      (GetTasksState p)[id.toNat]? = some (GetTaskStateById p id).1) ∧
    (GetTasksState p).length = p.tasks.length ∧
    (∀ (i : Nat) (h : i < p.tasks.length),
      (GetTasksState p)[i]? = some (p.tasks.get ⟨i, h⟩).state) := by
  refine ⟨?_, ?_, ?_, ?_⟩
  · unfold GetTaskStateById
    split
    · simp; omega
    · simp; omega
  · intro h
    have h' : id ≥ 0 ∧ id < (p.tasks.length : Int) := by omega
    unfold GetTaskStateById GetTasksState
    rw [dif_pos h']
    simp [taskItem.getState, List.getElem?_eq_getElem (show id.toNat < p.tasks.length by omega)]
  · simp [GetTasksState]
  · intro i h
    simp [GetTasksState, taskItem.getState, List.getElem?_eq_getElem h]

/-- Witness of C4: the query for identifier 0 after one `Submit` on the pool of
`New(1, WithTaskBufferSize(1))`. -/
theorem GetTaskStateById_spec_witness :
    GetTaskStateById (run freshPool [.submit neverFails 0]).1 0 = (.Queued, none) ∧
    GetTaskStateById (run freshPool [.submit neverFails 0]).1 1 =
      (.Failed, some .ErrNoTaskByIndex) ∧
    (GetTaskStateById (run freshPool [.submit neverFails 0]).1 0).2 = none ∧
    (GetTasksState (run freshPool [.submit neverFails 0]).1)[(0 : Int).toNat]? =
      some (GetTaskStateById (run freshPool [.submit neverFails 0]).1 0).1 :=
  ⟨rfl, rfl,
    (GetTaskStateById_spec (run freshPool [.submit neverFails 0]).1 0).2.1 (by decide)⟩

/-- A first call of `Stop` returns when no worker is busy and nothing has been
closed yet. -/
theorem Stop_returns (p : pool) (hfresh : p.stopOnce = .fresh) (hwg : p.wg = 0)
    (hopen : p.taskBuffer.closed = false)
    (hclose : ∃ ws, closeWorkers (p.workers.getD []) = .ok ws) :
    ∃ p', Stop p = .ok (p', none) := by
  obtain ⟨ws, hcw⟩ := hclose
  unfold Stop
  rw [hfresh]
  simp only [Stop.teardown, chan.close, hopen, hcw, Stop.finish, hwg]
  exact ⟨_, rfl⟩

/-! ## Steps: what each of them changes -/

theorem foldl_apply_fixed (opts : List PoolOption) (p : pool) :
    (opts.foldl PoolOption.apply p).tasks = p.tasks ∧
    (opts.foldl PoolOption.apply p).workersNum = p.workersNum := by
  induction opts generalizing p with
  | nil => exact ⟨rfl, rfl⟩
  | cons o os ih =>
    rw [List.foldl_cons]
    obtain ⟨h1, h2⟩ := ih (PoolOption.apply p o)
    rw [h1, h2]
    cases o <;> exact ⟨rfl, rfl⟩

/-- The pool returned by `New`: an empty registry, `workersNum` idle workers and
a freelist holding `0, ..., workersNum - 1`. -/
theorem New_ok (workersNum : Int) (opts : List PoolOption) (p : pool)
    (h : New workersNum opts = .ok p) :
    0 ≤ workersNum ∧ p.tasks = [] ∧
    p.workers = some (List.replicate workersNum.toNat newWorker) ∧
    p.workerStack = some { buf := List.range workersNum.toNat, cap := workersNum.toNat,
                           closed := false } := by
  unfold New at h
  split at h
  · cases h
  · rename_i hn
    simp only at h
    split at h
    · cases h
    · injection h with h
      subst h
      refine ⟨by omega, ?_, ?_, ?_⟩ <;>
        simp [(foldl_apply_fixed opts _).1, (foldl_apply_fixed opts _).2]

/-- The three ways a `Submit` call ends: a panic; success, where the entry is
appended with the length of the registry as index and identifier; rejection,
where the pool is unchanged. -/
theorem Submit_cases (p : pool) (t : Task) (maxRetries : Int) :
    Submit p t maxRetries = .panic ∨
    (∃ p1 : pool, p1.tasks = p.tasks ∧ p1.workers = p.workers ∧
      p1.workerStack = p.workerStack ∧
      Submit p t maxRetries =
        .ok ({ p1 with tasks := p.tasks ++ [⟨(p.tasks.length : Int), t, .Queued, maxRetries⟩] },
          (p.tasks.length : Int), none)) ∨
    Submit p t maxRetries = .ok (p, -1, some .ErrTaskQueueIsFull) := by
  unfold Submit
  by_cases hc : p.taskBuffer.closed = true
  · left
    simp [hc]
  · by_cases hd : p.dispatcher = .parked
    · right; left
      exact ⟨{ p with dispatcher := .holding (some p.tasks.length) }, rfl, rfl, rfl, by simp [hc, hd]⟩
    · by_cases hl : p.taskBuffer.buf.length < p.taskBuffer.cap
      · right; left
        exact ⟨{ p with taskBuffer := { p.taskBuffer with buf := p.taskBuffer.buf ++ [p.tasks.length] } },
          rfl, rfl, rfl, by simp [hc, hd, hl]⟩
      · right; right
        simp [hc, hd, hl]

theorem select_ok (p p' : pool) (pickDone : Bool) (h : assignTask.select p pickDone = .ok p') :
    p'.tasks = p.tasks ∧ p'.workers = p.workers ∧ p'.workerStack = p.workerStack := by
  unfold assignTask.select at h
  split at h
  · simp only at h
    split at h
    · injection h with h; subst h; exact ⟨rfl, rfl, rfl⟩
    · split at h
      · injection h with h; subst h; exact ⟨rfl, rfl, rfl⟩
      · split at h
        · injection h with h; subst h; exact ⟨rfl, rfl, rfl⟩
        · injection h with h; subst h; exact ⟨rfl, rfl, rfl⟩
  · cases h

theorem assign_ok (p p' : pool) (h : assignTask.assign p = .ok p') :
    ∃ (stack : chan Nat) (workerIndex : Nat) (rest : List Nat) (w : worker) (ptr : Nat),
      p.workerStack = some stack ∧ stack.buf = workerIndex :: rest ∧
      (p.workers.getD [])[workerIndex]? = some w ∧ w.holding = none ∧
      p'.workerStack = some { stack with buf := rest } ∧
      p'.workers = some ((p.workers.getD []).set workerIndex { w with holding := some (some ptr) }) ∧
      p'.tasks = setStateAt p.tasks ptr .Running := by
  unfold assignTask.assign at h
  split at h
  · split at h
    · cases h
    · rename_i stack hstack
      split at h
      · cases h
      · rename_i workerIndex rest hbuf
        split at h
        · cases h
        · rename_i ptr _
          split at h
          · cases h
          · rename_i w hw
            split at h
            · cases h
            · split at h
              · cases h
              · rename_i hhold
                injection h with h
                subst h
                refine ⟨stack, workerIndex, rest, w, ptr, hstack, hbuf, hw, ?_, rfl, rfl, rfl⟩
                cases hh : w.holding with
                | none => rfl
                | some x => simp [hh] at hhold
  · cases h

theorem work_ok (p p' : pool) (workerIndex : Nat) (rnd : Nat → Int)
    (h : worker.start p workerIndex rnd = .ok p') :
    ∃ (stack : chan Nat) (w : worker) (t : Option Nat),
      p.workerStack = some stack ∧
      (p.workers.getD [])[workerIndex]? = some w ∧ w.holding = some t ∧
      p'.workerStack = some { stack with buf := stack.buf ++ [workerIndex] } ∧
      p'.workers = some ((p.workers.getD []).set workerIndex { w with holding := none }) ∧
      (p'.tasks = p.tasks ∨
        ∃ (ptr : Nat) (ti ti' : taskItem) (ev : List Event), p.tasks[ptr]? = some ti ∧
          processTask ti p.config rnd = .ok (ti', ev) ∧ p'.tasks = p.tasks.set ptr ti') := by
  unfold worker.start at h
  split at h
  · cases h
  · rename_i w hw
    split at h
    · cases h
    · rename_i t ht
      simp only at h
      split at h
      · rename_i tasks ev hran
        split at h
        · cases h
        · rename_i stack hstack
          unfold chan.send at h
          split at h
          · rename_i stack' hsend
            split at hsend
            · cases hsend
            · split at hsend
              · injection hsend with hsend
                subst hsend
                split at h
                · cases h
                · injection h with h
                  subst h
                  refine ⟨stack, w, t, hstack, hw, ht, rfl, rfl, ?_⟩
                  simp only
                  split at hran
                  · injection hran with hran
                    injection hran with h1 h2
                    left; exact h1.symm
                  · rename_i ptr
                    split at hran
                    · cases hran
                    · rename_i ti hti
                      split at hran
                      · rename_i ti' ev' hproc
                        injection hran with hran
                        injection hran with h1 h2
                        right
                        exact ⟨ptr, ti, ti', ev', hti, hproc, h1.symm⟩
                      · cases hran
                      · cases hran
              · cases hsend
          · cases h
          · cases h
      · cases h
      · cases h

/-! ## Identifiers -/

theorem runTaskLoop_index (ti : taskItem) (cfg : RetryConfig) (rnd : Nat → Int) :
    ∀ (remaining i : Nat) (ev : List Event) (ti' : taskItem) (r : Value) (e : Option Err)
      (ev' : List Event),
      runTaskLoop ti cfg rnd remaining i ev = .ok (ti', r, e, ev') → ti'.index = ti.index := by
  intro remaining
  induction remaining with
  | zero =>
    intro i ev ti' r e ev' h
    rw [runTaskLoop] at h
    injection h with h
    injection h with h1 h2
    rw [← h1]
  | succ n ih =>
    intro i ev ti' r e ev' h
    rw [runTaskLoop] at h
    split at h
    · injection h with h
      injection h with h1 h2
      rw [← h1]
      rfl
    · split at h
      · injection h with h
        injection h with h1 h2
        rw [← h1]
        rfl
      · split at h
        · exact ih _ _ _ _ _ _ h
        · cases h
        · cases h

theorem processTask_index (ti ti' : taskItem) (cfg : RetryConfig) (rnd : Nat → Int)
    (ev : List Event) (h : processTask ti cfg rnd = .ok (ti', ev)) : ti'.index = ti.index := by
  unfold processTask at h
  split at h
  · rename_i ti1 r e ev1 hrun
    injection h with h
    injection h with h1 h2
    rw [← h1]
    exact runTaskLoop_index ti cfg rnd _ _ _ _ _ _ _ hrun
  · cases h
  · cases h

theorem Indexed_set (l : List taskItem) (ptr : Nat) (ti ti' : taskItem) (hl : Indexed l)
    (hti : l[ptr]? = some ti) (hidx : ti'.index = ti.index) : Indexed (l.set ptr ti') := by
  intro i x hx
  rw [List.getElem?_set] at hx
  split at hx
  · rename_i hpi
    split at hx
    · injection hx with hx
      subst hx
      subst hpi
      rw [hidx]
      exact hl ptr ti hti
    · cases hx
  · exact hl i x hx

theorem Indexed_setStateAt (l : List taskItem) (ptr : Nat) (state : TaskState)
    (hl : Indexed l) : Indexed (setStateAt l ptr state) := by
  unfold setStateAt
  split
  · rename_i ti hti
    exact Indexed_set l ptr ti _ hl hti rfl
  · exact hl

theorem length_setStateAt (l : List taskItem) (ptr : Nat) (state : TaskState) :
    (setStateAt l ptr state).length = l.length := by
  unfold setStateAt
  split <;> simp

theorem Indexed_append (l : List taskItem) (t : Task) (maxRetries : Int) (hl : Indexed l) :
    Indexed (l ++ [⟨(l.length : Int), t, .Queued, maxRetries⟩]) := by
  intro i x hx
  rw [List.getElem?_append] at hx
  split at hx
  · exact hl i x hx
  · rename_i hlen
    have hi : i - l.length = 0 := by
      by_contra hne
      have : ([(⟨(l.length : Int), t, .Queued, maxRetries⟩ : taskItem)])[i - l.length]? = none := by
        apply List.getElem?_eq_none
        simp
        omega
      rw [this] at hx
      cases hx
    rw [hi] at hx
    simp at hx
    subst hx
    simp
    omega

/-- What a step does to the registry and what it returns to a caller of
`Submit`. -/
theorem step_registry (p p' : pool) (a : Action) (h : step p a = .ok p')
    (hinv : Indexed p.tasks) :
    Indexed p'.tasks ∧
    ((submitReturn p a = none ∧ p'.tasks.length = p.tasks.length) ∨
     (submitReturn p a = some ((p.tasks.length : Int), none) ∧
        p'.tasks.length = p.tasks.length + 1) ∨
     (submitReturn p a = some (-1, some .ErrTaskQueueIsFull) ∧
        p'.tasks.length = p.tasks.length)) := by
  cases a with
  | submit t maxRetries =>
    simp only [step, submitReturn] at h ⊢
    rcases Submit_cases p t maxRetries with hs | ⟨p1, h1, _, _, hs⟩ | hs
    · rw [hs] at h
      cases h
    · rw [hs] at h ⊢
      injection h with h
      subst h
      exact ⟨Indexed_append p.tasks t maxRetries hinv, Or.inr (Or.inl ⟨rfl, by simp⟩)⟩
    · rw [hs] at h ⊢
      injection h with h
      subst h
      exact ⟨hinv, Or.inr (Or.inr ⟨rfl, rfl⟩)⟩
  | select pickDone =>
    obtain ⟨h1, _, _⟩ := select_ok p p' pickDone h
    rw [h1]
    exact ⟨hinv, Or.inl ⟨rfl, rfl⟩⟩
  | assign =>
    obtain ⟨stack, workerIndex, rest, w, ptr, _, _, _, _, _, _, h1⟩ := assign_ok p p' h
    rw [h1]
    exact ⟨Indexed_setStateAt _ _ _ hinv, Or.inl ⟨rfl, length_setStateAt _ _ _⟩⟩
  | work workerIndex rnd =>
    obtain ⟨stack, w, t, _, _, _, _, _, h1⟩ := work_ok p p' workerIndex rnd h
    rcases h1 with h1 | ⟨ptr, ti, ti', ev, hti, hproc, h1⟩
    · rw [h1]
      exact ⟨hinv, Or.inl ⟨rfl, rfl⟩⟩
    · rw [h1]
      exact ⟨Indexed_set _ _ ti ti' hinv hti (processTask_index ti ti' _ rnd ev hproc),
        Or.inl ⟨rfl, by simp⟩⟩

theorem run_registry (acts : List Action) :
    ∀ p : pool, Indexed p.tasks →
      Indexed (run p acts).1.tasks ∧
      p.tasks.length ≤ (run p acts).1.tasks.length ∧
      successIds (run p acts).2 =
        (List.range' p.tasks.length ((run p acts).1.tasks.length - p.tasks.length)).map
          Int.ofNat ∧
      (∀ x ∈ (run p acts).2, x.2 ≠ none → x = (-1, some .ErrTaskQueueIsFull)) := by
  induction acts with
  | nil =>
    intro p hp
    simp [run, successIds, hp]
  | cons a rest ih =>
    intro p hp
    rw [run]
    split
    · rename_i p' hstep
      obtain ⟨hp', hret⟩ := step_registry p p' a hstep hp
      obtain ⟨i1, i2, i3, i4⟩ := ih p' hp'
      simp only
      rcases hret with ⟨hr, hlen⟩ | ⟨hr, hlen⟩ | ⟨hr, hlen⟩
      · rw [hr]
        simp only [Option.toList, List.nil_append]
        rw [hlen] at i2 i3
        exact ⟨i1, i2, i3, i4⟩
      · rw [hr]
        simp only [Option.toList, List.singleton_append]
        rw [hlen] at i2 i3
        refine ⟨i1, by omega, ?_, ?_⟩
        · have hsplit : (run p' rest).1.tasks.length - p.tasks.length =
              ((run p' rest).1.tasks.length - (p.tasks.length + 1)) + 1 := by omega
          rw [hsplit, List.range'_succ]
          simp only [successIds] at i3 ⊢
          simp [i3]
        · intro x hx hne
          rcases List.mem_cons.mp hx with hx | hx
          · subst hx
            simp at hne
          · exact i4 x hx hne
      · rw [hr]
        simp only [Option.toList, List.singleton_append]
        rw [hlen] at i2 i3
        refine ⟨i1, i2, ?_, ?_⟩
        · simp only [successIds] at i3 ⊢
          simp [i3]
        · intro x hx hne
          rcases List.mem_cons.mp hx with hx | hx
          · exact hx
          · exact i4 x hx hne
    · exact ih p hp
    · simp [successIds, hp]

/-- C3: on a fresh pool, whatever the steps of the dispatcher and the workers
in between, the `Submit` calls that succeed return `0, 1, 2, ...` in order; a
call that fails returns `-1` with `ErrTaskQueueIsFull`; every entry of the
registry carries its position as index; a further `Submit` either succeeds,
returns the length of the registry and appends one entry, or fails and leaves
the registry as it is. -/
theorem Submit_identifiers (workersNum : Int) (opts : List PoolOption) (p0 : pool)
    (h0 : New workersNum opts = .ok p0) (acts : List Action) :
    successIds (run p0 acts).2 =
      (List.range (run p0 acts).1.tasks.length).map Int.ofNat ∧
    (∀ x ∈ (run p0 acts).2, x.2 ≠ none → x = (-1, some .ErrTaskQueueIsFull)) ∧
    Indexed (run p0 acts).1.tasks ∧
    (∀ (t : Task) (maxRetries : Int) (p' : pool) (id : Int) (err : Option Err),
      Submit (run p0 acts).1 t maxRetries = .ok (p', id, err) →
        (err = none ∧ id = ((run p0 acts).1.tasks.length : Int) ∧
          p'.tasks.length = (run p0 acts).1.tasks.length + 1) ∨
        (err = some .ErrTaskQueueIsFull ∧ id = -1 ∧ p'.tasks = (run p0 acts).1.tasks)) := by
  obtain ⟨_, htasks, _, _⟩ := New_ok workersNum opts p0 h0
  have hind : Indexed p0.tasks := by
    rw [htasks]
    intro i x hx
    simp at hx
  obtain ⟨i1, i2, i3, i4⟩ := run_registry acts p0 hind
  rw [htasks] at i3
  simp only [List.length_nil, Nat.sub_zero] at i3
  refine ⟨by rw [i3, List.range_eq_range'], i4, i1, ?_⟩
  intro t maxRetries p' id err hs
  rcases Submit_cases (run p0 acts).1 t maxRetries with h | ⟨p1, h1, _, _, h⟩ | h
  · rw [h] at hs
    cases hs
  · rw [h] at hs
    injection hs with hs
    injection hs with hs1 hs2
    injection hs2 with hs2 hs3
    subst hs1
    left
    exact ⟨hs3.symm, hs2.symm, by simp⟩
  · rw [h] at hs
    injection hs with hs
    injection hs with hs1 hs2
    injection hs2 with hs2 hs3
    subst hs1
    right
    exact ⟨hs3.symm, hs2.symm, rfl⟩

/-- Witness of C3: three `Submit` calls on a pool of capacity 1, the second one
rejected, the third one after the dispatcher has taken the first entry. -/
theorem Submit_identifiers_witness :
    New 1 [.WithTaskBufferSize 1] = .ok freshPool ∧
    successIds (run freshPool [.submit neverFails 0, .submit alwaysFails 0, .select false,
      .submit alwaysFails 2]).2 = [0, 1] ∧
    (successIds (run freshPool [.submit neverFails 0, .submit alwaysFails 0, .select false,
        .submit alwaysFails 2]).2 =
      (List.range (run freshPool [.submit neverFails 0, .submit alwaysFails 0, .select false,
        .submit alwaysFails 2]).1.tasks.length).map Int.ofNat) :=
  ⟨rfl, rfl, (Submit_identifiers 1 [.WithTaskBufferSize 1] freshPool rfl
    [.submit neverFails 0, .submit alwaysFails 0, .select false, .submit alwaysFails 2]).1⟩

/-! ## Worker slots -/

theorem countP_set_of_getElem? {α : Type} (q : α → Bool) (l : List α) (i : Nat) (x y : α)
    (h : l[i]? = some y) :
    (l.set i x).countP q + (if q y then 1 else 0) = l.countP q + (if q x then 1 else 0) := by
  induction l generalizing i with
  | nil => simp at h
  | cons a l ih =>
    cases i with
    | zero =>
      simp at h
      subst h
      simp [List.countP_cons]
      omega
    | succ i =>
      simp at h
      have := ih i h
      simp [List.countP_cons]
      omega

theorem SlotsInv_init (workersNum : Int) (opts : List PoolOption) (p : pool)
    (h : New workersNum opts = .ok p) : SlotsInv workersNum.toNat p := by
  obtain ⟨_, _, hw, hs⟩ := New_ok workersNum opts p h
  refine ⟨_, _, hw, hs, ?_, List.nodup_range _, ?_⟩
  · simp [List.countP_replicate, newWorker]
  · intro i hi
    refine ⟨newWorker, ?_, rfl⟩
    simp only [List.mem_range] at hi
    simp [hi]

theorem SlotsInv_step (n : Nat) (p p' : pool) (a : Action) (h : step p a = .ok p')
    (hinv : SlotsInv n p) : SlotsInv n p' := by
  obtain ⟨ws, stack, hws, hstack, hcount, hnodup, hidle⟩ := hinv
  cases a with
  | submit t maxRetries =>
    simp only [step] at h
    rcases Submit_cases p t maxRetries with hs | ⟨p1, _, h1, h2, hs⟩ | hs
    · rw [hs] at h
      cases h
    · rw [hs] at h
      injection h with h
      subst h
      exact ⟨ws, stack, by simpa [h1] using hws, by simpa [h2] using hstack, hcount, hnodup,
        hidle⟩
    · rw [hs] at h
      injection h with h
      subst h
      exact ⟨ws, stack, hws, hstack, hcount, hnodup, hidle⟩
  | select pickDone =>
    obtain ⟨_, h1, h2⟩ := select_ok p p' pickDone h
    exact ⟨ws, stack, by rw [h1, hws], by rw [h2, hstack], hcount, hnodup, hidle⟩
  | assign =>
    obtain ⟨stack1, workerIndex, rest, w, ptr, e1, e2, e3, e4, e5, e6, _⟩ := assign_ok p p' h
    rw [hstack] at e1
    injection e1 with e1
    subst e1
    rw [hws] at e3 e6
    simp only [Option.getD_some] at e3 e6
    rw [e2] at hcount hnodup hidle
    have hcnt := countP_set_of_getElem? (fun w : worker => w.holding.isSome) ws workerIndex
      { w with holding := some (some ptr) } w e3
    simp only [e4, Option.isSome_none, Option.isSome_some] at hcnt
    simp only [List.length_cons] at hcount
    obtain ⟨hnot, hnodup'⟩ := List.nodup_cons.mp hnodup
    refine ⟨_, _, e6, e5, ?_, hnodup', ?_⟩
    · simp only [Bool.false_eq_true, if_false, if_true] at hcnt
      simp only
      omega
    · intro i hi
      obtain ⟨w', hw', hidle'⟩ := hidle i (List.mem_cons_of_mem _ hi)
      have hne : workerIndex ≠ i := by
        intro heq
        subst heq
        exact hnot hi
      exact ⟨w', by rw [List.getElem?_set_ne hne]; exact hw', hidle'⟩
  | work workerIndex rnd =>
    obtain ⟨stack1, w, t, e1, e2, e3, e4, e5, _⟩ := work_ok p p' workerIndex rnd h
    rw [hstack] at e1
    injection e1 with e1
    subst e1
    rw [hws] at e2 e5
    simp only [Option.getD_some] at e2 e5
    have hcnt := countP_set_of_getElem? (fun w : worker => w.holding.isSome) ws workerIndex
      { w with holding := none } w e2
    simp only [e3, Option.isSome_none, Option.isSome_some] at hcnt
    have hnot : workerIndex ∉ stack.buf := by
      intro hmem
      obtain ⟨w', hw', hidle'⟩ := hidle workerIndex hmem
      rw [e2] at hw'
      injection hw' with hw'
      subst hw'
      rw [e3] at hidle'
      cases hidle'
    have hlt : workerIndex < ws.length := by
      by_contra hge
      rw [List.getElem?_eq_none (by omega)] at e2
      cases e2
    refine ⟨_, _, e5, e4, ?_, ?_, ?_⟩
    · simp only [Bool.false_eq_true, if_false, if_true] at hcnt
      simp only [List.length_append, List.length_singleton]
      omega
    · simp only
      rw [List.nodup_append]
      refine ⟨hnodup, List.nodup_singleton _, ?_⟩
      intro x hx hx'
      simp only [List.mem_singleton] at hx'
      subst hx'
      exact hnot hx
    · intro i hi
      simp only [List.mem_append, List.mem_singleton] at hi
      rcases hi with hi | hi
      · obtain ⟨w', hw', hidle'⟩ := hidle i hi
        have hne : workerIndex ≠ i := by
          intro heq
          subst heq
          exact hnot hi
        exact ⟨w', by rw [List.getElem?_set_ne hne]; exact hw', hidle'⟩
      · subst hi
        exact ⟨{ w with holding := none }, List.getElem?_set_self hlt, rfl⟩

theorem SlotsInv_reachable (workersNum : Int) (opts : List PoolOption) (p : pool)
    (h : Reachable workersNum opts p) : 0 ≤ workersNum ∧ SlotsInv workersNum.toNat p := by
  induction h with
  | init p h => exact ⟨(New_ok workersNum opts p h).1, SlotsInv_init workersNum opts p h⟩
  | step p p' a _ h ih => exact ⟨ih.1, SlotsInv_step _ p p' a h ih.2⟩

/-- C10: in every state reached from `New(n)` by `Submit` calls, dispatcher
steps (its `select`; acquiring a slot and handing the entry to that worker)
and worker steps (finishing the entry and releasing the slot), the number of
identifiers in the freelist plus the number of workers holding an entry is
`n`; so the freelist holds at most `n` identifiers, none of them twice, and
at most `n` workers hold an entry. -/
theorem freelist_accounting (workersNum : Int) (opts : List PoolOption) (p : pool)
    (h : Reachable workersNum opts p) :
    (((freelist p).length + busy p : Nat) : Int) = workersNum ∧
    ((freelist p).length : Int) ≤ workersNum ∧
    (freelist p).Nodup ∧
    ((busy p : Nat) : Int) ≤ workersNum := by
  obtain ⟨hn, ws, stack, hws, hstack, hcount, hnodup, _⟩ := SlotsInv_reachable workersNum opts p h
  have hf : freelist p = stack.buf := by
    unfold freelist
    rw [hstack]
  have hb : busy p = ws.countP (fun w => w.holding.isSome) := by
    unfold busy
    rw [hws]
    rfl
  rw [hf, hb]
  refine ⟨by omega, by omega, hnodup, by omega⟩

/-- Witness of C10: a pool of one worker after a `Submit`, the `select` of the
dispatcher and the assignment of the entry: the freelist is empty and the
worker is busy. -/
theorem freelist_accounting_witness :
    Reachable 1 [.WithTaskBufferSize 1]
      (run freshPool [.submit neverFails 0, .select false, .assign]).1 ∧
    freelist (run freshPool [.submit neverFails 0, .select false, .assign]).1 = [] ∧
    busy (run freshPool [.submit neverFails 0, .select false, .assign]).1 = 1 ∧
    ((((freelist (run freshPool [.submit neverFails 0, .select false, .assign]).1).length +
        busy (run freshPool [.submit neverFails 0, .select false, .assign]).1 : Nat) : Int) = 1 ∧
     ((freelist (run freshPool [.submit neverFails 0, .select false, .assign]).1).length : Int)
        ≤ 1 ∧
     (freelist (run freshPool [.submit neverFails 0, .select false, .assign]).1).Nodup ∧
     ((busy (run freshPool [.submit neverFails 0, .select false, .assign]).1 : Nat) : Int) ≤ 1) :=
  have hreach : Reachable 1 [.WithTaskBufferSize 1]
      (run freshPool [.submit neverFails 0, .select false, .assign]).1 :=
    Reachable.step _ _ .assign
      (Reachable.step _ _ (.select false)
        (Reachable.step _ _ (.submit neverFails 0) (Reachable.init freshPool rfl) rfl) rfl) rfl
  ⟨hreach, rfl, rfl, freelist_accounting 1 [.WithTaskBufferSize 1] _ hreach⟩

/-! ## Stop -/

/-- The loop that closes the receive points succeeds only on open ones, closes
every one of them and changes nothing else. -/
theorem closeWorkers_ok (ws : List worker) :
    ∀ ws' : List worker, closeWorkers ws = .ok ws' →
      ws'.length = ws.length ∧
      (∀ w ∈ ws, w.taskQueue.closed = false) ∧
      (∀ w ∈ ws', w.taskQueue.closed = true) ∧
      ws'.map worker.holding = ws.map worker.holding := by
  induction ws with
  | nil =>
    intro ws' h
    rw [closeWorkers] at h
    injection h with h
    subst h
    simp
  | cons w ws ih =>
    intro ws' h
    rw [closeWorkers] at h
    unfold chan.close at h
    split at h
    · rename_i q hq
      split at hq
      · cases hq
      · rename_i hopen
        injection hq with hq
        subst hq
        split at h
        · rename_i ws1 hws1
          injection h with h
          subst h
          obtain ⟨i1, i2, i3, i4⟩ := ih ws1 hws1
          refine ⟨by simp [i1], ?_, ?_, by simp [i4]⟩
          · intro x hx
            rcases List.mem_cons.mp hx with hx | hx
            · subst hx
              simpa using hopen
            · exact i2 x hx
          · intro x hx
            rcases List.mem_cons.mp hx with hx | hx
            · subst hx
              rfl
            · exact i3 x hx
        · cases h
        · cases h
    · cases h
    · cases h

/-- The first part of `Stop`: it completes only when the queue and every
receive point are open, and it leaves them closed and the context
cancelled. -/
theorem teardown_ok (p p1 : pool) (h : Stop.teardown p = .ok p1) :
    p.taskBuffer.closed = false ∧ p1.taskBuffer.closed = true ∧
    p1.taskBuffer.buf = p.taskBuffer.buf ∧ p1.ctx = true ∧ p1.stopOnce = .running ∧
    closeWorkers (p.workers.getD []) = .ok (p1.workers.getD []) := by
  unfold Stop.teardown chan.close at h
  split at h
  · rename_i q hq
    split at hq
    · cases hq
    · rename_i hopen
      injection hq with hq
      subst hq
      split at h
      · rename_i ws hws
        injection h with h
        subst h
        refine ⟨by simpa using hopen, rfl, rfl, rfl, rfl, ?_⟩
        cases hw : p.workers with
        | none =>
          rw [hw] at hws
          simp only [Option.getD_none] at hws
          rw [closeWorkers] at hws
          injection hws with hws
          subst hws
          simp [closeWorkers]
        | some l =>
          rw [hw] at hws
          simpa using hws
      · cases h
      · cases h
  · cases h
  · cases h

theorem map_set_of_getElem? {α β : Type} (f : α → β) (l : List α) (i : Nat) (x y : α)
    (h : l[i]? = some y) (hf : f x = f y) : (l.set i x).map f = l.map f := by
  induction l generalizing i with
  | nil => simp at h
  | cons a l ih =>
    cases i with
    | zero =>
      simp at h
      subst h
      simp [hf]
    | succ i =>
      simp at h
      simp [ih i h]

/-- No step of a caller of `Submit`, of the dispatcher or of a worker opens or
closes the queue or a receive point. -/
theorem step_closed (p q : pool) (a : Action) (h : step p a = .ok q) :
    q.taskBuffer.closed = p.taskBuffer.closed ∧
    (q.workers.getD []).map (fun w => w.taskQueue.closed) =
      (p.workers.getD []).map (fun w => w.taskQueue.closed) := by
  cases a with
  | submit t maxRetries =>
    simp only [step] at h
    unfold Submit at h
    by_cases hc : p.taskBuffer.closed = true
    · simp [hc] at h
    · have hc' : p.taskBuffer.closed = false := by simpa using hc
      by_cases hd : p.dispatcher = .parked
      · simp [hc, hd] at h
        subst h
        exact ⟨rfl, rfl⟩
      · by_cases hl : p.taskBuffer.buf.length < p.taskBuffer.cap
        · simp [hc, hd, hl] at h
          subst h
          exact ⟨by simp [hc'], rfl⟩
        · simp [hc, hd, hl] at h
          subst h
          exact ⟨rfl, rfl⟩
  | select pickDone =>
    simp only [step] at h
    unfold assignTask.select at h
    split at h
    · simp only at h
      split at h
      · injection h with h; subst h; exact ⟨rfl, rfl⟩
      · split at h
        · injection h with h; subst h; exact ⟨rfl, rfl⟩
        · split at h
          · injection h with h; subst h; exact ⟨rfl, rfl⟩
          · injection h with h; subst h; exact ⟨rfl, rfl⟩
    · cases h
  | assign =>
    simp only [step] at h
    unfold assignTask.assign at h
    split at h
    · split at h
      · cases h
      · split at h
        · cases h
        · split at h
          · cases h
          · split at h
            · cases h
            · rename_i w hw
              split at h
              · cases h
              · split at h
                · cases h
                · injection h with h
                  subst h
                  exact ⟨rfl, map_set_of_getElem? _ _ _ _ w hw rfl⟩
    · cases h
  | work workerIndex rnd =>
    simp only [step] at h
    unfold worker.start at h
    split at h
    · cases h
    · rename_i w hw
      split at h
      · cases h
      · simp only at h
        split at h
        · split at h
          · cases h
          · split at h
            · split at h
              · cases h
              · injection h with h
                subst h
                exact ⟨rfl, map_set_of_getElem? _ _ _ _ w hw rfl⟩
            · cases h
            · cases h
        · cases h
        · cases h

theorem Steps_closed (p q : pool) (h : Steps p q) :
    q.taskBuffer.closed = p.taskBuffer.closed ∧
    (q.workers.getD []).map (fun w => w.taskQueue.closed) =
      (p.workers.getD []).map (fun w => w.taskQueue.closed) := by
  induction h with
  | refl => exact ⟨rfl, rfl⟩
  | step q r a _ h ih =>
    obtain ⟨h1, h2⟩ := step_closed q r a h
    exact ⟨h1.trans ih.1, h2.trans ih.2⟩

/-- The rest of `Stop`: it returns `nil`, keeps the queue as it is, releases the
worker table and the freelist and marks `stopOnce` done. -/
theorem finish_ok (p p' : pool) (e : Option Err) (h : Stop.finish p = .ok (p', e)) :
    e = none ∧ p'.taskBuffer = p.taskBuffer ∧ p'.workers = none ∧ p'.workerStack = none ∧
    p'.stopOnce = .done := by
  unfold Stop.finish at h
  split at h
  · split at h
    · injection h with h
      injection h with h1 h2
      subst h1
      exact ⟨h2.symm, rfl, rfl, rfl, rfl⟩
    · cases h
  · cases h

theorem Stop_of_done (p : pool) (h : p.stopOnce = .done) : Stop p = .ok (p, none) := by
  unfold Stop
  rw [h]

/-- C8: when a call of `Stop` returns (at once, or after waiting for the
workers), it returns no error, and a further call of `Stop` returns no error
and leaves the pool exactly as the first call left it. The first call (the
part before `p.wg.Wait()`, steps of the other goroutines while it waits, the
part after it) finds the queue and every worker receive point open, closes
each of them, they stay closed while it waits and when it returns, and the
further call closes nothing: each is closed exactly once. A first call that
returns at once is such a call without steps in between. -/
theorem Stop_idempotent (p p1 p2 p' : pool) (e : Option Err) :
    ((Stop p = .ok (p', e) ∨ Stop.finish p = .ok (p', e)) →
      e = none ∧ Stop p' = .ok (p', none)) ∧
    (p.stopOnce = .fresh → Stop.teardown p = .ok p1 → Steps p1 p2 →
      Stop.finish p2 = .ok (p', e) →
        (p.taskBuffer.closed = false ∧ ∀ w ∈ p.workers.getD [], w.taskQueue.closed = false) ∧
        (p1.taskBuffer.closed = true ∧ p1.ctx = true ∧
          (p1.workers.getD []).length = (p.workers.getD []).length ∧
          ∀ w ∈ p1.workers.getD [], w.taskQueue.closed = true) ∧
        (p2.taskBuffer.closed = true ∧
          (p2.workers.getD []).length = (p.workers.getD []).length ∧
          ∀ w ∈ p2.workers.getD [], w.taskQueue.closed = true) ∧
        (p'.taskBuffer.closed = true ∧ p'.workers = none ∧ p'.workerStack = none ∧
          p'.stopOnce = .done) ∧
        e = none ∧ Stop p' = .ok (p', none)) ∧
    (p.stopOnce = .fresh → Stop p = .ok (p', e) →
      ∃ q, Stop.teardown p = .ok q ∧ Steps q q ∧ Stop.finish q = .ok (p', e)) := by
  refine ⟨?_, ?_, ?_⟩
  · intro h
    rcases h with h | h
    · unfold Stop at h
      split at h
      · rename_i hdone
        injection h with h
        injection h with h1 h2
        subst h1
        exact ⟨h2.symm, Stop_of_done p hdone⟩
      · cases h
      · split at h
        · obtain ⟨h1, _, _, _, h5⟩ := finish_ok _ p' e h
          exact ⟨h1, Stop_of_done p' h5⟩
        · cases h
        · cases h
    · obtain ⟨h1, _, _, _, h5⟩ := finish_ok _ p' e h
      exact ⟨h1, Stop_of_done p' h5⟩
  · intro _ htear hsteps hfin
    obtain ⟨t1, t2, _, t4, _, t6⟩ := teardown_ok p p1 htear
    obtain ⟨c1, c2, c3, _⟩ := closeWorkers_ok _ _ t6
    obtain ⟨s1, s2⟩ := Steps_closed p1 p2 hsteps
    obtain ⟨f1, f2, f3, f4, f5⟩ := finish_ok p2 p' e hfin
    have hlen : (p2.workers.getD []).length = (p1.workers.getD []).length := by
      have := congrArg List.length s2
      simpa using this
    have hall : ∀ w ∈ p2.workers.getD [], w.taskQueue.closed = true := by
      intro w hw
      have hm : w.taskQueue.closed ∈
          (p2.workers.getD []).map (fun w => w.taskQueue.closed) :=
        List.mem_map.mpr ⟨w, hw, rfl⟩
      rw [s2] at hm
      obtain ⟨w1, hw1, heq⟩ := List.mem_map.mp hm
      rw [← heq]
      exact c3 w1 hw1
    refine ⟨⟨t1, c2⟩, ⟨t2, t4, c1, c3⟩, ⟨by rw [s1, t2], by rw [hlen, c1], hall⟩,
      ⟨by rw [f2, s1, t2], f3, f4, f5⟩, f1, Stop_of_done p' f5⟩
  · intro hfresh h
    unfold Stop at h
    rw [hfresh] at h
    simp only at h
    split at h
    · rename_i q hq
      exact ⟨q, hq, Steps.refl q, h⟩
    · cases h
    · cases h

/-- Witness of C8: `Stop` on the pool of `New(1, WithTaskBufferSize(1))` returns
at once; `Stop` on that pool while worker 0 holds an entry closes the queue
and the receive point, waits for the worker and then returns. -/
theorem Stop_idempotent_witness :
    (New 1 [.WithTaskBufferSize 1] = .ok freshPool ∧
      Stop freshPool = .ok (stoppedPool, none) ∧
      ((none : Option Err) = none ∧ Stop stoppedPool = .ok (stoppedPool, none))) ∧
    (Stop busyPool = .blocked ∧ Stop.teardown busyPool = .ok busyClosing ∧
      Steps busyClosing busyDrained ∧ Stop.finish busyDrained = .ok (busyStopped, none) ∧
      (busyPool.workers.getD []).length = 1 ∧
      (∀ w ∈ busyPool.workers.getD [], w.taskQueue.closed = false) ∧
      (∀ w ∈ busyDrained.workers.getD [], w.taskQueue.closed = true) ∧
      busyStopped.taskBuffer.closed = true ∧
      Stop busyStopped = .ok (busyStopped, none)) :=
  have hsteps : Steps busyClosing busyDrained :=
    Steps.step _ _ _ (.work 0 (fun _ => 0)) (Steps.refl busyClosing) rfl
  have hw := (Stop_idempotent busyPool busyClosing busyDrained busyStopped none).2.1
    rfl rfl hsteps rfl
  ⟨⟨rfl, rfl, (Stop_idempotent freshPool freshPool freshPool stoppedPool none).1 (Or.inl rfl)⟩,
    rfl, rfl, hsteps, rfl, rfl, hw.1.2, hw.2.2.1.2.2, hw.2.2.2.1.1, hw.2.2.2.2.2⟩

end Pool
